import Mathlib

/-!
Verification of the XOR file-encryptor (src/src/main.rs).

Bytes are modelled as `Nat` (Rust `u8`; `^` on `u8` is bitwise XOR, which
`Nat.xor` computes identically on values below 256, and XOR never leaves
that range). A password is modelled by its byte sequence (`password.as_bytes()`
in the source), so the empty password is the empty list. The file system is
modelled as a map from paths to optional byte contents, and each file
operation additionally returns the list of I/O events it performed, in order.
-/

/-- Key byte used at position `i`: the source expression
`key[i % key.len()]` inside `xor_with_key`, read totally via `getD`
(the out-of-bounds/panic behaviour is modelled separately by `xorAux?`). -/
def keyByteAt (key : List Nat) (i : Nat) : Nat :=
  key.getD (i % key.length) 0

/-- `fn xor_with_key(data: &[u8], key: &[u8]) -> Vec<u8>` from main.rs:
`data.iter().enumerate().map(|(i, byte)| byte ^ key[i % key.len()]).collect()`. -/
def xor_with_key (data key : List Nat) : List Nat :=
  data.enum.map (fun p => Nat.xor p.2 (keyByteAt key p.1))

/-- Index-passing recursion equivalent to `xor_with_key`; used to reason by
induction over `data`. -/
def xorAux (key : List Nat) : Nat → List Nat → List Nat
  | _, [] => []
  | i, b :: rest => Nat.xor b (keyByteAt key i) :: xorAux key (i + 1) rest

/-- Fallible version of the XOR loop that mirrors Rust's unguarded indexing
`key[i % key.len()]`: the lookup is `none` exactly where Rust would panic
(empty key makes the modulus zero and the index out of bounds). -/
def xorAux? (key : List Nat) : Nat → List Nat → Option (List Nat)
  | _, [] => some []
  | i, b :: rest =>
    match key[i % key.length]? with
    | none => none
    | some k => (xorAux? key (i + 1) rest).map (fun t => Nat.xor b k :: t)

/-- `xor_with_key` with the panic-as-`none` semantics of the source's
unguarded slice indexing. -/
def xor_with_key? (data key : List Nat) : Option (List Nat) :=
  xorAux? key 0 data

/-- An I/O event performed by a file operation: a read of a path, or a
write of full contents to a path. -/
inductive FsEvent where
  | readF : String → FsEvent
  | writeF : String → List Nat → FsEvent
deriving DecidableEq

/-- `fn encrypt_file(input_path, output_path, password) -> Result<(), String>`
from main.rs, over a file-system map. Faithful to the source's order:
`fs::read` happens first; only then is the password checked for emptiness;
then the transform runs and the result is written in one `fs::write`.
The result also carries the updated file system and the I/O-event trace.
(The Rust error strings append the OS error detail after the text kept here.) -/
def encrypt_file (fsys : String → Option (List Nat)) (input_path output_path : String)
    (password : List Nat) :
    Except String Unit × (String → Option (List Nat)) × List FsEvent :=
  match fsys input_path with
  | none => (Except.error "Failed to read input file", fsys, [FsEvent.readF input_path])
  | some data =>
    if password.isEmpty then
      (Except.error "Password cannot be empty.", fsys, [FsEvent.readF input_path])
    else
      let encrypted := xor_with_key data password
      (Except.ok (), fun p => if p = output_path then some encrypted else fsys p,
        [FsEvent.readF input_path, FsEvent.writeF output_path encrypted])

/-- `fn decrypt_file(input_path, output_path, password) -> Result<(), String>`
from main.rs: reads the input, rejects an empty password, applies the same
`xor_with_key`, writes the result. -/
def decrypt_file (fsys : String → Option (List Nat)) (input_path output_path : String)
    (password : List Nat) :
    Except String Unit × (String → Option (List Nat)) × List FsEvent :=
  match fsys input_path with
  | none => (Except.error "Failed to read input file", fsys, [FsEvent.readF input_path])
  | some data =>
    if password.isEmpty then
      (Except.error "Password cannot be empty.", fsys, [FsEvent.readF input_path])
    else
      let decrypted := xor_with_key data password
      (Except.ok (), fun p => if p = output_path then some decrypted else fsys p,
        [FsEvent.readF input_path, FsEvent.writeF output_path decrypted])

/-- `enum CryptoAction` from main.rs. -/
inductive CryptoAction where
  | Encrypt : CryptoAction
  | Decrypt : CryptoAction
deriving DecidableEq

/-- `struct HistoryEntry` from main.rs. -/
structure HistoryEntry where
  file_path : String
  action : CryptoAction
  success : Bool
deriving DecidableEq

/-- The summary computed at the end of `show_history` in main.rs: a fold over
the history incrementing a per-direction counter, never consulting `success`.
First component is the encrypted count, second the decrypted count. -/
def summarize (history : List HistoryEntry) : Nat × Nat :=
  history.foldl
    (fun acc entry =>
      match entry.action with
      | CryptoAction.Encrypt => (acc.1 + 1, acc.2)
      | CryptoAction.Decrypt => (acc.1, acc.2 + 1))
    (0, 0)

/-- A concrete one-file file system used for witnesses: `"a.txt"` holds
the bytes `[1, 2]`, every other path is unreadable. -/
def fsysDemo : String → Option (List Nat) :=
  fun p => if p = "a.txt" then some [1, 2] else none

/-! ### Helper lemmas -/

lemma xorAux_eq_map_enumFrom (key : List Nat) :
    ∀ (n : Nat) (data : List Nat),
      (List.enumFrom n data).map (fun p => Nat.xor p.2 (keyByteAt key p.1)) =
        xorAux key n data := by
  intro n data
  induction data generalizing n with
  | nil => simp [xorAux]
  | cons b rest ih => simp [List.enumFrom_cons, xorAux, ih]

lemma xor_with_key_eq_aux (data key : List Nat) :
    xor_with_key data key = xorAux key 0 data := by
  have h : data.enum = List.enumFrom 0 data := rfl
  rw [xor_with_key, h, xorAux_eq_map_enumFrom]

lemma xorAux_get? (key : List Nat) :
    ∀ (n : Nat) (data : List Nat) (i : Nat),
      (xorAux key n data).get? i =
        (data.get? i).map (fun b => Nat.xor b (keyByteAt key (n + i))) := by
  intro n data
  induction data generalizing n with
  | nil => intro i; simp [xorAux]
  | cons b rest ih =>
      intro i
      cases i with
      | zero => simp [xorAux]
      | succ j =>
          have h2 := ih (n + 1) j
          simp [xorAux] at h2 ⊢
          rw [show n + 1 + j = n + (j + 1) by omega] at h2
          exact h2

lemma xor_with_key_get? (data key : List Nat) (i : Nat) :
    (xor_with_key data key).get? i =
      (data.get? i).map (fun b => Nat.xor b (keyByteAt key i)) := by
  rw [xor_with_key_eq_aux]
  have h := xorAux_get? key 0 data i
  simpa using h

lemma xor_with_key_length (data key : List Nat) :
    (xor_with_key data key).length = data.length := by
  simp [xor_with_key]

lemma keyByteAt_of_ne (key : List Nat) (hk : key ≠ []) (i : Nat) :
    key[i % key.length]? = some (keyByteAt key i) := by
  have hpos : 0 < key.length := List.length_pos.mpr hk
  have hlt : i % key.length < key.length := Nat.mod_lt i hpos
  rw [List.getElem?_eq_getElem hlt, keyByteAt, List.getD_eq_getElem?_getD,
    List.getElem?_eq_getElem hlt]
  rfl

lemma xorAux?_eq_some (key : List Nat) (hk : key ≠ []) :
    ∀ (n : Nat) (data : List Nat), xorAux? key n data = some (xorAux key n data) := by
  intro n data
  induction data generalizing n with
  | nil => simp [xorAux?, xorAux]
  | cons b rest ih =>
      simp [xorAux?, xorAux, keyByteAt_of_ne key hk n, ih (n + 1)]

lemma xor_with_key?_eq_some (data key : List Nat) (hk : key ≠ []) :
    xor_with_key? data key = some (xor_with_key data key) := by
  rw [xor_with_key?, xor_with_key_eq_aux]
  exact xorAux?_eq_some key hk 0 data

lemma summarize_loop (h : List HistoryEntry) :
    ∀ (a b : Nat),
      h.foldl
          (fun acc entry =>
            match entry.action with
            | CryptoAction.Encrypt => (acc.1 + 1, acc.2)
            | CryptoAction.Decrypt => (acc.1, acc.2 + 1))
          (a, b) =
        (a + h.countP (fun e => decide (e.action = CryptoAction.Encrypt)),
          b + h.countP (fun e => decide (e.action = CryptoAction.Decrypt))) := by
  induction h with
  | nil => intro a b; simp
  | cons e t ih =>
      intro a b
      cases he : e.action with
      | Encrypt =>
          simp [List.countP_cons, he, ih (a + 1) b]
          omega
      | Decrypt =>
          simp [List.countP_cons, he, ih a (b + 1)]
          omega

/-! ### Claims -/

/-- Claim C1: the byte transform is involutive — for every byte sequence
`data` and every non-empty key, applying `xor_with_key` twice with the same
key returns `data`. -/
theorem C1_xor_with_key_involutive (data key : List Nat) (hk : key ≠ []) :
    xor_with_key (xor_with_key data key) key = data := by
  apply List.ext_get?
  intro i
  rw [xor_with_key_get?, xor_with_key_get?]
  cases h : data.get? i with
  | none => simp
  | some b =>
      show some (Nat.xor (Nat.xor b (keyByteAt key i)) (keyByteAt key i)) = some b
      exact congrArg some (Nat.xor_cancel_right (keyByteAt key i) b)

/-- Witness for C1 at `data = [1, 2, 3]`, `key = [5, 7]`. -/
theorem C1_xor_with_key_involutive_witness :
    ([5, 7] : List Nat) ≠ [] ∧ xor_with_key (xor_with_key [1, 2, 3] [5, 7]) [5, 7] = [1, 2, 3] :=
  ⟨by decide, C1_xor_with_key_involutive [1, 2, 3] [5, 7] (by decide)⟩

/-- Claim C2: for data of length `N` and non-empty key of length `L`, the
output has exactly `N` bytes (no header or metadata) and byte `i` equals
`data[i] XOR key[i mod L]`. -/
theorem C2_xor_with_key_pointwise (data key : List Nat) (hk : key ≠ []) :
    (xor_with_key data key).length = data.length ∧
      ∀ i, i < data.length →
        (xor_with_key data key).getD i 0 =
          Nat.xor (data.getD i 0) (key.getD (i % key.length) 0) := by
  refine ⟨xor_with_key_length data key, ?_⟩
  intro i hi
  rw [List.getD_eq_get?, List.getD_eq_get?, xor_with_key_get?]
  rw [List.get?_eq_get hi]
  rfl

/-- Witness for C2 at `data = [10, 20, 30]`, `key = [3, 4]`. -/
theorem C2_xor_with_key_pointwise_witness :
    ([3, 4] : List Nat) ≠ [] ∧
      ((xor_with_key [10, 20, 30] [3, 4]).length = ([10, 20, 30] : List Nat).length ∧
        ∀ i, i < ([10, 20, 30] : List Nat).length →
          (xor_with_key [10, 20, 30] [3, 4]).getD i 0 =
            Nat.xor (([10, 20, 30] : List Nat).getD i 0)
              (([3, 4] : List Nat).getD (i % ([3, 4] : List Nat).length) 0)) :=
  ⟨by decide, C2_xor_with_key_pointwise [10, 20, 30] [3, 4] (by decide)⟩

/-- Claim C3, counterexample: with an empty password the failure is not
independent of I/O. On an unreadable input path the returned error is the
read failure, not the empty-password error; and on a readable input path a
read event is performed before the empty-password failure, so file I/O does
occur. -/
theorem C3_counterexample :
    (encrypt_file (fun _ => none) "a.txt" "b.txt" []).1 =
        Except.error "Failed to read input file" ∧
      (encrypt_file fsysDemo "a.txt" "b.txt" []).2.2 = [FsEvent.readF "a.txt"] := by
  constructor
  · rfl
  · simp [encrypt_file, fsysDemo]

/-- Claim C3 as amended: with an empty password and a readable input path,
`encrypt_file` and `decrypt_file` fail with the empty-password error after
reading the input but before any transform or write — the file system is
unchanged, no output file is created, and the only I/O event is the read of
the input path. (If the input path is unreadable, the read-failure error is
returned instead.) -/
theorem C3_empty_password (fsys : String → Option (List Nat)) (ip op : String)
    (data : List Nat) (h : fsys ip = some data) :
    encrypt_file fsys ip op [] =
        (Except.error "Password cannot be empty.", fsys, [FsEvent.readF ip]) ∧
      decrypt_file fsys ip op [] =
        (Except.error "Password cannot be empty.", fsys, [FsEvent.readF ip]) := by
  constructor
  · rw [encrypt_file, h]
    rfl
  · rw [decrypt_file, h]
    rfl

/-- Witness for C3 (amended) on the concrete file system `fsysDemo`. -/
theorem C3_empty_password_witness :
    fsysDemo "a.txt" = some [1, 2] ∧
      (encrypt_file fsysDemo "a.txt" "b.txt" [] =
          (Except.error "Password cannot be empty.", fsysDemo, [FsEvent.readF "a.txt"]) ∧
        decrypt_file fsysDemo "a.txt" "b.txt" [] =
          (Except.error "Password cannot be empty.", fsysDemo, [FsEvent.readF "a.txt"])) :=
  ⟨by simp [fsysDemo],
    C3_empty_password fsysDemo "a.txt" "b.txt" [1, 2] (by simp [fsysDemo])⟩

/-- Claim C4: the transform is length-preserving for every non-empty key,
empty input yields empty output, and the unguarded-indexing semantics
succeeds (no panic) rather than erroring. -/
theorem C4_length_preserving (data key : List Nat) (hk : key ≠ []) :
    (xor_with_key data key).length = data.length ∧
      xor_with_key [] key = [] ∧
      xor_with_key? data key = some (xor_with_key data key) := by
  exact ⟨xor_with_key_length data key, rfl, xor_with_key?_eq_some data key hk⟩

/-- Witness for C4 at `data = []` and `data = [9]`, `key = [1]`. -/
theorem C4_length_preserving_witness :
    ([1] : List Nat) ≠ [] ∧
      ((xor_with_key [9] [1]).length = ([9] : List Nat).length ∧
        xor_with_key [] [1] = [] ∧
        xor_with_key? [9] [1] = some (xor_with_key [9] [1])) :=
  ⟨by decide, C4_length_preserving [9] [1] (by decide)⟩

/-- Claim C5: `encrypt_file` and `decrypt_file` are extensionally equal —
same read-validate-transform-write sequence, same transform, same result on
every file system, path pair and password. -/
theorem C5_encrypt_decrypt_same (fsys : String → Option (List Nat))
    (ip op : String) (pw : List Nat) :
    encrypt_file fsys ip op pw = decrypt_file fsys ip op pw := rfl

/-- Claim C6: on a read failure, both operations return the read-failure
error, leave the file system unchanged (no output file created or modified),
and their I/O trace holds the failed read only — no write event of any
kind, so no partial writes. -/
theorem C6_read_failure_no_write (fsys : String → Option (List Nat))
    (ip op : String) (pw : List Nat) (h : fsys ip = none) :
    encrypt_file fsys ip op pw =
        (Except.error "Failed to read input file", fsys, [FsEvent.readF ip]) ∧
      decrypt_file fsys ip op pw =
        (Except.error "Failed to read input file", fsys, [FsEvent.readF ip]) := by
  constructor
  · rw [encrypt_file, h]
  · rw [decrypt_file, h]

/-- Witness for C6 on the empty file system (every path unreadable). -/
theorem C6_read_failure_no_write_witness :
    (fun _ => none : String → Option (List Nat)) "missing.txt" = none ∧
      (encrypt_file (fun _ => none) "missing.txt" "out.txt" [1] =
          (Except.error "Failed to read input file",
            (fun _ => none), [FsEvent.readF "missing.txt"]) ∧
        decrypt_file (fun _ => none) "missing.txt" "out.txt" [1] =
          (Except.error "Failed to read input file",
            (fun _ => none), [FsEvent.readF "missing.txt"])) :=
  ⟨rfl, C6_read_failure_no_write (fun _ => none) "missing.txt" "out.txt" [1] rfl⟩

/-- Claim C7: the history summary counts attempts by direction, success or
failure alike — the encrypted count is the number of `Encrypt` records and
the decrypted count the number of `Decrypt` records, the summary is
unchanged if every record is marked successful, and one successful encrypt
plus one failed decrypt summarize to `(1, 1)`. -/
theorem C7_summarize_counts_attempts (h : List HistoryEntry) :
    summarize h =
        (h.countP (fun e => decide (e.action = CryptoAction.Encrypt)),
          h.countP (fun e => decide (e.action = CryptoAction.Decrypt))) ∧
      summarize h = summarize (h.map (fun e => { e with success := true })) ∧
      summarize [⟨"f1", CryptoAction.Encrypt, true⟩, ⟨"f2", CryptoAction.Decrypt, false⟩] =
        (1, 1) := by
  refine ⟨?_, ?_, by decide⟩
  · have := summarize_loop h 0 0
    simpa [summarize] using this
  · have h1 := summarize_loop h 0 0
    have h2 := summarize_loop (h.map (fun e => { e with success := true })) 0 0
    rw [summarize, h1, summarize, h2, List.countP_map, List.countP_map]
    rfl

/-- Claim C8: keystream periodicity — for a non-empty key of length `L`,
the key byte used at position `i` equals the one used at position `i + L`. -/
theorem C8_keystream_periodic (key : List Nat) (hk : key ≠ []) (i : Nat) :
    keyByteAt key i = keyByteAt key (i + key.length) := by
  rw [keyByteAt, keyByteAt, Nat.add_mod_right]

/-- Witness for C8 at `key = [3, 4]`, `i = 5`. -/
theorem C8_keystream_periodic_witness :
    ([3, 4] : List Nat) ≠ [] ∧
      keyByteAt [3, 4] 5 = keyByteAt [3, 4] (5 + ([3, 4] : List Nat).length) :=
  ⟨by decide, C8_keystream_periodic [3, 4] (by decide) 5⟩

/-- Claim C9: transforming `[0x41, 0x42, 0x43]` with the single-byte key
`[0x4B]` yields `[0x0A, 0x09, 0x08]`, and transforming that output again
with the same key restores `[0x41, 0x42, 0x43]`. -/
theorem C9_scenario_abc :
    xor_with_key [0x41, 0x42, 0x43] [0x4B] = [0x0A, 0x09, 0x08] ∧
      xor_with_key [0x0A, 0x09, 0x08] [0x4B] = [0x41, 0x42, 0x43] := by
  decide

/-- Claim C10: `xor_with_key` is total under the non-empty-key precondition —
for a non-empty key the index `i % key.length` is always in bounds, and the
panic-as-`none` semantics of the unguarded indexing succeeds on every input,
returning exactly the total function's value. -/
theorem C10_total_on_nonempty_key (data key : List Nat) (hk : key ≠ []) :
    (∀ i : Nat, i % key.length < key.length) ∧
      xor_with_key? data key = some (xor_with_key data key) := by
  have hpos : 0 < key.length := List.length_pos.mpr hk
  exact ⟨fun i => Nat.mod_lt i hpos, xor_with_key?_eq_some data key hk⟩

/-- Witness for C10 at `data = [7, 8, 9]`, `key = [2, 5]`. -/
theorem C10_total_on_nonempty_key_witness :
    ([2, 5] : List Nat) ≠ [] ∧
      ((∀ i : Nat, i % ([2, 5] : List Nat).length < ([2, 5] : List Nat).length) ∧
        xor_with_key? [7, 8, 9] [2, 5] = some (xor_with_key [7, 8, 9] [2, 5])) :=
  ⟨by decide, C10_total_on_nonempty_key [7, 8, 9] [2, 5] (by decide)⟩
